import Mathlib

/-!
Verification development for the astra agent framework.

The Python sources are shallowly embedded over `List Char` (a Python `str`
is a sequence of code points).  The embedded functions are:

* `Astra.parse_tool_call`  — `src/astra/agent.py`, `parse_tool_call`
* `Astra.Agent.execute`    — `src/astra/agent.py`, `Agent.execute` tool loop
* `Astra.geminiComplete`   — `src/astra/models/gemini.py`, `GeminiProvider.complete`
* `Astra.geminiStream`     — `src/astra/models/gemini.py`, `GeminiProvider.stream`
  (prompt shaping part)
* `Astra.syncGenerate`     — `src/astra/llms.py`, `ProviderSyncAdapter.generate`

`json.loads` / `json.dumps` are embedded as `Astra.jsonParse` / `Astra.jdump`
over an inductive `JValue`; numeric literals are kept verbatim (no claim
depends on numeric re-serialisation).
-/

namespace Astra

/-- Python strings are modelled as lists of characters. -/
abbrev Str := List Char

/-- Shorthand turning a Lean string literal into the model type. -/
def lit (s : String) : Str := s.data

/-- Whitespace for Python `str.strip` and for the regex class `\s`
(ASCII part: space, tab, newline, carriage return, vertical tab, form feed). -/
def isSpace (c : Char) : Bool :=
  c = ' ' || c = '\t' || c = '\n' || c = '\r' || c = '\x0b' || c = '\x0c'

/-- Drop leading whitespace (left part of Python `str.strip`). -/
def stripLeft (s : Str) : Str := s.dropWhile isSpace

/-- Drop trailing whitespace (right part of Python `str.strip`). -/
def stripRight (s : Str) : Str := (s.reverse.dropWhile isSpace).reverse

/-- Python `str.strip()` with no arguments. -/
def pyStrip (s : Str) : Str := stripLeft (stripRight s)

/-- Boolean prefix test, `a` is a prefix of `b`. -/
def isPre (a b : Str) : Bool :=
  match a, b with
  | [], _ => true
  | _ :: _, [] => false
  | x :: xs, y :: ys => if x = y then isPre xs ys else false

/-- Leftmost index at which `pat` occurs in `s` (Python `str.find`,
`none` standing for `-1`). -/
def findSub (pat : Str) (s : Str) : Option Nat :=
  match s with
  | [] => if isPre pat [] then some 0 else none
  | c :: rest =>
    if isPre pat (c :: rest) then some 0
    else (findSub pat rest).map (· + 1)

/-- Substring containment test (Python `in` on strings). -/
def containsSub (pat : Str) (s : Str) : Bool := (findSub pat s).isSome

/-- Whitespace accepted between JSON tokens by Python `json.loads`. -/
def wsJson (c : Char) : Bool := c = ' ' || c = '\t' || c = '\n' || c = '\r'

/-- Skip inter-token whitespace in the JSON reader. -/
def skipWs (s : Str) : Str := s.dropWhile wsJson

/-- JSON values as produced by `json.loads`; numeric literals are
kept verbatim. -/
inductive JValue where
  | null
  | bool (b : Bool)
  | num (lexeme : Str)
  | str (s : Str)
  | arr (elems : List JValue)
  | obj (fields : List (Str × JValue))

instance : Inhabited JValue := ⟨JValue.null⟩

/-- Value of a single hexadecimal digit. -/
def hexVal (c : Char) : Option Nat :=
  if '0' ≤ c ∧ c ≤ '9' then some (c.toNat - '0'.toNat)
  else if 'a' ≤ c ∧ c ≤ 'f' then some (c.toNat - 'a'.toNat + 10)
  else if 'A' ≤ c ∧ c ≤ 'F' then some (c.toNat - 'A'.toNat + 10)
  else none

/-- Single-character JSON string escapes. -/
def escChar (c : Char) : Option Char :=
  if c = '"' then some '"'
  else if c = '\\' then some '\\'
  else if c = '/' then some '/'
  else if c = 'b' then some '\x08'
  else if c = 'f' then some '\x0c'
  else if c = 'n' then some '\n'
  else if c = 'r' then some '\r'
  else if c = 't' then some '\t'
  else none

/-- Body of a JSON string after the opening quote: returns the decoded
characters and the remainder after the closing quote. -/
def parseStringBody (fuel : Nat) (s : Str) : Option (Str × Str) :=
  match fuel, s with
  | 0, _ => none
  | _, [] => none
  | fuel + 1, c :: rest =>
    if c = '"' then some ([], rest)
    else if c = '\\' then
      match rest with
      | [] => none
      | e :: rest2 =>
        if e = 'u' then
          match rest2 with
          | h1 :: h2 :: h3 :: h4 :: rest3 =>
            match hexVal h1, hexVal h2, hexVal h3, hexVal h4 with
            | some a, some b, some c2, some d =>
              match parseStringBody fuel rest3 with
              | some (cs, rem) =>
                some (Char.ofNat (a * 4096 + b * 256 + c2 * 16 + d) :: cs, rem)
              | none => none
            | _, _, _, _ => none
          | _ => none
        else
          match escChar e with
          | some ec =>
            match parseStringBody fuel rest2 with
            | some (cs, rem) => some (ec :: cs, rem)
            | none => none
          | none => none
    else if c.toNat < 32 then none
    else
      match parseStringBody fuel rest with
      | some (cs, rem) => some (c :: cs, rem)
      | none => none

/-- Decimal digit test. -/
def isDigitCh (c : Char) : Bool := '0' ≤ c && c ≤ '9'

/-- Longest digit run at the front of `s`, with the rest. -/
def takeDigits (s : Str) : Str × Str := (s.takeWhile isDigitCh, s.dropWhile isDigitCh)

/-- JSON number literal at the front of `s` (strict JSON grammar:
optional minus, integer part without leading zeros, optional fraction,
optional exponent).  Returns the lexeme and the rest. -/
def parseNumber (s : Str) : Option (Str × Str) :=
  let (neg, s1) :=
    match s with
    | '-' :: r => (['-'], r)
    | _ => (([] : Str), s)
  match s1 with
  | [] => none
  | c :: _ =>
    if ¬ isDigitCh c then none
    else
      let (ip, s2) := takeDigits s1
      if ip.length > 1 ∧ ip.headI = '0' then none
      else
        let (fp, s3) :=
          match s2 with
          | '.' :: r =>
            let (ds, r2) := takeDigits r
            if ds = [] then (none, s2) else (some ('.' :: ds), r2)
          | _ => (none, s2)
        match fp, s3 with
        | none, '.' :: _ => none
        | _, _ =>
          let frac := fp.getD []
          let (ep, s4) :=
            match s3 with
            | e :: r =>
              if e = 'e' ∨ e = 'E' then
                let (sg, r1) :=
                  match r with
                  | '+' :: r2 => (['+'], r2)
                  | '-' :: r2 => (['-'], r2)
                  | _ => (([] : Str), r)
                let (ds, r2) := takeDigits r1
                if ds = [] then (none, s3) else (some (e :: sg ++ ds), r2)
              else (none, s3)
            | _ => (none, s3)
          match ep, s4 with
          | none, e :: _ =>
            if e = 'e' ∨ e = 'E' then none
            else some (neg ++ ip ++ frac, s4)
          | _, _ => some (neg ++ ip ++ frac ++ ep.getD [], s4)

mutual

/-- JSON value at the front of `s` (after optional whitespace);
models the recursive core of `json.loads`. -/
def parseValue (fuel : Nat) (s : Str) : Option (JValue × Str) :=
  match fuel with
  | 0 => none
  | fuel + 1 =>
    match skipWs s with
    | [] => none
    | c :: rest =>
      if c = '"' then
        match parseStringBody (rest.length + 1) rest with
        | some (cs, rem) => some (.str cs, rem)
        | none => none
      else if c = '\x7b' then
        match skipWs rest with
        | '\x7d' :: rem => some (.obj [], rem)
        | other => parseMembers fuel other
      else if c = '[' then
        match skipWs rest with
        | ']' :: rem => some (.arr [], rem)
        | other => parseElems fuel other
      else if c = 't' then
        if isPre (lit "rue") rest then some (.bool true, rest.drop 3) else none
      else if c = 'f' then
        if isPre (lit "alse") rest then some (.bool false, rest.drop 4) else none
      else if c = 'n' then
        if isPre (lit "ull") rest then some (.null, rest.drop 3) else none
      else
        match parseNumber (c :: rest) with
        | some (lx, rem) => some (.num lx, rem)
        | none => none

/-- Members of a JSON object, after the opening brace, when the next
token is not a closing brace. -/
def parseMembers (fuel : Nat) (s : Str) : Option (JValue × Str) :=
  match fuel with
  | 0 => none
  | fuel + 1 =>
    match s with
    | '"' :: rest =>
      match parseStringBody (rest.length + 1) rest with
      | some (key, rem) =>
        match skipWs rem with
        | ':' :: rem2 =>
          match parseValue fuel rem2 with
          | some (v, rem3) =>
            match skipWs rem3 with
            | ',' :: rem4 =>
              match parseMembers fuel (skipWs rem4) with
              | some (.obj fields, rem5) => some (.obj ((key, v) :: fields), rem5)
              | _ => none
            | '\x7d' :: rem4 => some (.obj [(key, v)], rem4)
            | _ => none
          | none => none
        | _ => none
      | none => none
    | _ => none

/-- Elements of a JSON array, after the opening bracket, when the next
token is not a closing bracket. -/
def parseElems (fuel : Nat) (s : Str) : Option (JValue × Str) :=
  match fuel with
  | 0 => none
  | fuel + 1 =>
    match parseValue fuel s with
    | some (v, rem) =>
      match skipWs rem with
      | ',' :: rem2 =>
        match parseElems fuel rem2 with
        | some (.arr elems, rem3) => some (.arr (v :: elems), rem3)
        | _ => none
      | ']' :: rem2 => some (.arr [v], rem2)
      | _ => none
    | none => none

end

/-- Python `json.loads`: a single JSON value with nothing but
whitespace around it, else failure (`none` models the raised
`JSONDecodeError`). -/
def jsonParse (s : Str) : Option JValue :=
  match parseValue (s.length + 1) s with
  | some (v, rest) => if skipWs rest = [] then some v else none
  | none => none

/-- Key membership in a decoded object (`"k" in obj`); duplicates keep
all pairs, membership is any occurrence. -/
def hasKey (fields : List (Str × JValue)) (k : Str) : Bool :=
  fields.any (fun p => p.1 = k)

/-- Lookup in a decoded object (`obj.get(k)`); with duplicate keys the
last occurrence wins, as in Python's dict built by `json.loads`. -/
def jGet (fields : List (Str × JValue)) (k : Str) : Option JValue :=
  fields.foldl (fun acc p => if p.1 = k then some p.2 else acc) none

/-- Hexadecimal digit for `\u` escapes emitted by `json.dumps`. -/
def hexDigit (n : Nat) : Char :=
  if n < 10 then Char.ofNat ('0'.toNat + n) else Char.ofNat ('a'.toNat + (n - 10))

/-- Escape one character of a JSON string for `json.dumps`
(ensure_ascii=False: only quotes, backslashes and control characters
are escaped). -/
def escapeJsonChar (c : Char) : Str :=
  if c = '"' then ['\\', '"']
  else if c = '\\' then ['\\', '\\']
  else if c = '\n' then ['\\', 'n']
  else if c = '\t' then ['\\', 't']
  else if c = '\r' then ['\\', 'r']
  else if c = '\x08' then ['\\', 'b']
  else if c = '\x0c' then ['\\', 'f']
  else if c.toNat < 32 then
    ['\\', 'u', '0', '0', hexDigit (c.toNat / 16), hexDigit (c.toNat % 16)]
  else [c]

/-- Interleave a separator between rendered pieces. -/
def joinSep (sep : Str) : List Str → Str
  | [] => []
  | [x] => x
  | x :: xs => x ++ sep ++ joinSep sep xs

mutual

/-- Python `json.dumps(v, ensure_ascii=False)` with default separators;
numeric lexemes are emitted verbatim. -/
def jdump (v : JValue) : Str :=
  match v with
  | .null => lit "null"
  | .bool true => lit "true"
  | .bool false => lit "false"
  | .num lx => lx
  | .str s => '"' :: (s.flatMap escapeJsonChar) ++ ['"']
  | .arr elems => '[' :: joinSep (lit ", ") (jdumpList elems) ++ [']']
  | .obj fields => '\x7b' :: joinSep (lit ", ") (jdumpFields fields) ++ ['\x7d']

/-- Render array elements for `jdump`. -/
def jdumpList : List JValue → List Str
  | [] => []
  | v :: vs => jdump v :: jdumpList vs

/-- Render object members for `jdump`. -/
def jdumpFields : List (Str × JValue) → List Str
  | [] => []
  | (k, v) :: fs =>
    ('"' :: (k.flatMap escapeJsonChar) ++ ['"'] ++ lit ": " ++ jdump v) :: jdumpFields fs

end

mutual

/-- Python `str()` applied to a value decoded from JSON (identity on
strings, `repr`-style rendering otherwise). -/
def pyStr (v : JValue) : Str :=
  match v with
  | .str s => s
  | v => pyRepr v

/-- Python `repr` of a value decoded from JSON, used only when a
non-string ends up where the agent expects text. -/
def pyRepr (v : JValue) : Str :=
  match v with
  | .null => lit "None"
  | .bool true => lit "True"
  | .bool false => lit "False"
  | .num lx => lx
  | .str s => '\x27' :: s ++ ['\x27']
  | .arr elems => '[' :: joinSep (lit ", ") (pyReprList elems) ++ [']']
  | .obj fields => '\x7b' :: joinSep (lit ", ") (pyReprFields fields) ++ ['\x7d']

/-- Render list elements for `pyRepr`. -/
def pyReprList : List JValue → List Str
  | [] => []
  | v :: vs => pyRepr v :: pyReprList vs

/-- Render dict members for `pyRepr`. -/
def pyReprFields : List (Str × JValue) → List Str
  | [] => []
  | (k, v) :: fs => ('\x27' :: k ++ ['\x27'] ++ lit ": " ++ pyRepr v) :: pyReprFields fs

end

/-! ## The reply parser, `parse_tool_call` (src/astra/agent.py, lines 71-107) -/

/-- Literal final-answer marker looked for anywhere in a reply. -/
def finalMarker : Str := lit "FINAL:"

/-- Key under which the final answer is returned. -/
def finalKey : Str := lit "final"

/-- Tool-name field of a tool-call object. -/
def toolKeyName : Str := lit "tool"

/-- Arguments field of a tool-call object. -/
def argsKeyName : Str := lit "args"

/-- Quoted tool key, the literal `"tool"` tested by `'"tool"' in seg`. -/
def quotedTool : Str := '"' :: toolKeyName ++ ['"']

/-- Quoted args key, the literal `"args"` tested by `'"args"' in seg`. -/
def quotedArgs : Str := '"' :: argsKeyName ++ ['"']

/-- Attempt of `json.loads` on a candidate segment followed by the shape
check `isinstance(obj, dict) and "tool" in obj and "args" in obj`. -/
def tryToolObj (seg : Str) : Option (List (Str × JValue)) :=
  match jsonParse seg with
  | some (.obj d) =>
    if hasKey d toolKeyName ∧ hasKey d argsKeyName then some d else none
  | _ => none

/-- Tail condition of the lazy fenced regex: after the closing brace the
pattern still needs `\s*` and three backticks. -/
def fenceTailOk (rest : Str) : Bool := isPre (lit "```") (rest.dropWhile isSpace)

/-- Lazy scan for the group `\{[\s\S]*?\}` inside the fenced pattern:
the group closes at the first brace whose tail completes the match. -/
def fenceClose (acc : Str) : Str → Option Str
  | [] => none
  | c :: rest =>
    if c = '\x7d' ∧ fenceTailOk rest then some (acc ++ ['\x7d'])
    else fenceClose (acc ++ [c]) rest

/-- Match of the fenced pattern anchored at the current position:
case-insensitive ```` ```json ````, optional whitespace, then the lazy
brace group. -/
def fenceMatchAt (s : Str) : Option Str :=
  match s with
  | b1 :: b2 :: b3 :: c1 :: c2 :: c3 :: c4 :: rest =>
    if b1 = '`' ∧ b2 = '`' ∧ b3 = '`' ∧ c1.toLower = 'j' ∧ c2.toLower = 's' ∧
        c3.toLower = 'o' ∧ c4.toLower = 'n' then
      match rest.dropWhile isSpace with
      | '\x7b' :: after => fenceClose ['\x7b'] after
      | _ => none
    else none
  | _ => none

/-- Model of `re.search` for the fenced pattern: leftmost starting
position whose anchored match succeeds; returns group 1. -/
def fencedExtract (s : Str) : Option Str :=
  match s with
  | [] => none
  | _ :: rest =>
    match fenceMatchAt s with
    | some g => some g
    | none => fencedExtract rest

/-- Split at the first occurrence of character `c`: the part before it
and the part after it. -/
def splitAtChar (c : Char) : Str → Option (Str × Str)
  | [] => none
  | x :: rest =>
    if x = c then some ([], rest)
    else (splitAtChar c rest).map (fun p => (x :: p.1, p.2))

/-- Model of the `re.finditer(r"\{[\s\S]*?\}", s)` loop of step 3 of the
parser: each lazy match runs from a `\x7b` to the first following
`\x7d`; the next match is searched after the previous one; a match is
accepted when it textually contains both quoted keys and parses into a
two-field object. -/
def scanSegs : Nat → Str → Option (List (Str × JValue))
  | 0, _ => none
  | fuel + 1, s =>
    match splitAtChar '\x7b' s with
    | none => none
    | some (_, afterOpen) =>
      match splitAtChar '\x7d' afterOpen with
      | none => none
      | some (mid, afterClose) =>
        let seg : Str := '\x7b' :: mid ++ ['\x7d']
        if containsSub quotedTool seg ∧ containsSub quotedArgs seg then
          match tryToolObj seg with
          | some d => some d
          | none => scanSegs fuel afterClose
        else scanSegs fuel afterClose

/-- The reply parser of `Agent.execute` (src/astra/agent.py, `parse_tool_call`):
strip the text; a `FINAL:` marker anywhere returns the final dictionary;
else try the fenced block, then the whole string, then the left-to-right
scan for minimal brace-delimited candidates; `none` models Python `None`. -/
def parse_tool_call (text : Str) : Option (List (Str × JValue)) :=
  let s := pyStrip text
  match findSub finalMarker s with
  | some idx =>
    some [(finalKey, .str (pyStrip (s.drop (idx + finalMarker.length))))]
  | none =>
    let step2 : Option (List (Str × JValue)) :=
      match jsonParse s with
      | some (.obj d) =>
        if hasKey d toolKeyName ∧ hasKey d argsKeyName then some d
        else scanSegs (s.length + 1) s
      | _ => scanSegs (s.length + 1) s
    match fencedExtract s with
    | some g =>
      match tryToolObj g with
      | some d => some d
      | none => step2
    | none => step2

/-! ## The tool loop, `Agent.execute` (src/astra/agent.py, lines 109-146) -/

/-- A registered tool: called on the decoded `args` value, it either
returns a result string or raises (modelled by `Except`); the error
string models `f"{e}"`.  Covers both pydantic validation failures in
`Tool.__call__` (src/astra/tools.py, line 32) and errors raised by the
wrapped callable. -/
abbrev ToolFn := JValue → Except Str Str

/-- Tool registry passed to `Agent.execute` (`Optional[Dict[str, Tool]]`). -/
abbrev ToolReg := Option (List (Str × ToolFn))

/-- Dictionary lookup in the registry. -/
def toolLookup (reg : List (Str × ToolFn)) (name : Str) : Option ToolFn :=
  match reg with
  | [] => none
  | (k, f) :: rest => if k = name then some f else toolLookup rest name

/-- How one execution of the loop ended (instrumentation of the four
exit paths of the Python loop). -/
inductive ExitReason where
  | unparsed
  | finalAnswer
  | unknownTool
  | stepLimit
deriving DecidableEq

/-- Result of `Agent.execute`, instrumented with the number of backend
calls, the loop-local variables at exit, the last raw reply, and the
exit path taken. -/
structure ExecState where
  output : Str
  calls : Nat
  lastFinal : Option Str
  lastToolResult : Option Str
  lastReply : Option Str
  reason : ExitReason

/-- Python truthiness chain `a or b` on optional strings: an empty or
missing string falls through. -/
def pyOrOpt (a b : Option Str) : Option Str :=
  match a with
  | some s => if s = [] then b else some s
  | none => b

/-- Return value of `Agent.execute`: `(last_final or last_tool_result or "").strip()`. -/
def loopReturn (lf ltr : Option Str) : Str :=
  pyStrip ((pyOrOpt lf (pyOrOpt ltr none)).getD [])

/-- Transcript extension appended after a dispatched tool call
(src/astra/agent.py, lines 140-144). -/
def toolTurnExt (name : Str) (args : JValue) (result : Str) : Str :=
  lit "\n\n[Tool call]\nName: " ++ name ++ lit "\nArgs: " ++ jdump args ++
  lit "\n[Tool result]\n" ++ result ++
  lit "\n\nRespond with another tool call JSON or FINAL: <answer>."

/-- Step cap of the tool loop (`max_steps = 6`). -/
def maxSteps : Nat := 6

/-- Prefix of the unknown-tool message. -/
def unknownToolMsgPre : Str := lit "Tool \x27"

/-- Middle part of the unknown-tool message, between the tool name and
the echoed reply. -/
def unknownToolMsgMid : Str := lit "\x27 not available. Proceeding without tools.\n\n"

/-- Tool name extracted from a parsed intent: `str(parsed.get("tool", ""))`. -/
def toolNameOf (d : List (Str × JValue)) : Str :=
  pyStr ((jGet d toolKeyName).getD (.str []))

/-- Argument payload extracted from a parsed intent: `parsed.get("args", {})`. -/
def toolArgsOf (d : List (Str × JValue)) : JValue :=
  (jGet d argsKeyName).getD (.obj [])

/-- Registry lookup guarded by `not tools or tool_name not in tools`
(an absent or empty registry behaves like a failed lookup). -/
def dispatchLookup (tools : ToolReg) (name : Str) : Option ToolFn :=
  match tools with
  | none => none
  | some reg => toolLookup reg name

/-- Run a dispatched tool under the `try`/`except` of the loop: a raised
exception becomes the tool-result message `f"Tool execution error: {e}"`. -/
def runTool (toolFn : ToolFn) (args : JValue) : Str :=
  match toolFn args with
  | .ok r => r
  | .error e => lit "Tool execution error: " ++ e

/-- One pass of the `for _ in range(max_steps)` loop of `Agent.execute`,
recursing on the remaining step budget.  `backend` is `backend.generate`
as a function of the transcript. -/
def execGo (backend : Str → Str) (tools : ToolReg) :
    Nat → Str → Option Str → Option Str → Option Str → Nat → ExecState
  | 0, _, lf, ltr, lr, calls =>
    ⟨loopReturn lf ltr, calls, lf, ltr, lr, .stepLimit⟩
  | fuel + 1, transcript, lf, ltr, _, calls =>
    let reply := backend transcript
    match parse_tool_call reply with
    | none =>
      let lf' := some (pyStrip reply)
      ⟨loopReturn lf' ltr, calls + 1, lf', ltr, some reply, .unparsed⟩
    | some d =>
      match jGet d finalKey with
      | some fv =>
        let lf' := some (pyStrip (pyStr fv))
        ⟨loopReturn lf' ltr, calls + 1, lf', ltr, some reply, .finalAnswer⟩
      | none =>
        match dispatchLookup tools (toolNameOf d) with
        | none =>
          let lf' := some (unknownToolMsgPre ++ toolNameOf d ++ unknownToolMsgMid ++ reply)
          ⟨loopReturn lf' ltr, calls + 1, lf', ltr, some reply, .unknownTool⟩
        | some toolFn =>
          let toolResult := runTool toolFn (toolArgsOf d)
          execGo backend tools fuel
            (transcript ++ toolTurnExt (toolNameOf d) (toolArgsOf d) toolResult)
            lf (some toolResult) (some reply) (calls + 1)

namespace Agent

/-- The tool loop of `Agent.execute` from the initial conversation
prompt; prompt assembly (role, goal, schemas) is abstracted into the
`conversation` argument, which no claim depends on. -/
def execute (backend : Str → Str) (tools : ToolReg) (conversation : Str) : ExecState :=
  execGo backend tools maxSteps conversation none none none 0

end Agent

/-! ## Gemini provider, `GeminiProvider.complete` / `.stream`
(src/astra/models/gemini.py) -/

/-- Exceptions observable inside `GeminiProvider.complete`:
the `google.api_core` classes tested by the handler, the
`asyncio.TimeoutError` raised by `asyncio.wait_for`, and anything else. -/
inductive GError where
  | notFound
  | internalServerError
  | serviceUnavailable
  | deadlineExceeded
  | timeoutExpired
  | other (tag : Nat)
deriving DecidableEq

/-- The transient test of the handler:
`isinstance(e, (InternalServerError, ServiceUnavailable, DeadlineExceeded))`.
`asyncio.TimeoutError` is none of these classes, so a timed-out attempt
is not transient under this test. -/
def isTransientErr (e : GError) : Bool :=
  match e with
  | .internalServerError => true
  | .serviceUnavailable => true
  | .deadlineExceeded => true
  | _ => false

/-- Join of the message transcript, `_join_messages`:
`"\n".join(f"{m.role.value}: {m.content}")`. -/
def joinMessages (msgs : List (Str × Str)) : Str :=
  joinSep (lit "\n") (msgs.map fun m => m.1 ++ lit ": " ++ m.2)

/-- Character cap on outgoing prompts (`MAX_CHARS = 20000`). -/
def MAX_CHARS : Nat := 20000

/-- Prompt trimming of `complete` and `stream`:
`if len(prompt) > MAX_CHARS: prompt = prompt[-MAX_CHARS:]`. -/
def trimMax (p : Str) : Str :=
  if MAX_CHARS < p.length then p.drop (p.length - MAX_CHARS) else p

/-- Per-attempt wall-clock bound passed to `asyncio.wait_for` (`timeout=60`). -/
def attemptTimeout : Nat := 60

/-- Retry cap of the primary model (`max_retries = 3`). -/
def maxRetries : Nat := 3

/-- Fixed-priority fallback model list of `complete`. -/
def fallbackModels : List Str :=
  [lit "models/gemini-2.5-flash", lit "models/gemini-2.5-flash-lite",
   lit "models/gemini-1.5-flash"]

/-- Outcome of one guarded generation attempt against a model: the
number of earlier attempts against that same model, the model name, the
timeout handed to `asyncio.wait_for`, and the prompt determine either a
reply text or a raised exception. -/
abbrev GenAttempt := Nat → Str → Nat → Str → Except GError Str

/-- Record of one generation call actually issued (model name and the
timeout it was bounded by). -/
structure GCall where
  callee : Str
  timeout : Nat
deriving DecidableEq

/-- Result of `GeminiProvider.complete`, instrumented with the number
of primary attempts, the fallback models invoked, the backoff sleeps
performed, every generation call issued, and the prompt sent. -/
structure GeminiTrace where
  result : Except GError Str
  primaryCalls : Nat
  fallbacksTried : List Str
  sleeps : List Nat
  callLog : List GCall
  promptSent : Str

/-- The fallback loop of `complete`: try each fallback model once,
swallowing its errors; return the models tried, the calls issued, and
the first success if any. -/
def runFallbacks (gen : GenAttempt) (prompt : Str) :
    List Str → List Str × List GCall × Option Str
  | [] => ([], [], none)
  | m :: ms =>
    match gen 0 m attemptTimeout prompt with
    | .ok s => ([m], [⟨m, attemptTimeout⟩], some s)
    | .error _ =>
      let (tried, log, r) := runFallbacks gen prompt ms
      (m :: tried, ⟨m, attemptTimeout⟩ :: log, r)

/-- The `for attempt in range(max_retries)` loop of `complete`.
`primaryModel` is `self.cfg.model`; `rem` is the remaining iteration
budget with `attempt = maxRetries - rem`. -/
def geminiGo (gen : GenAttempt) (primaryModel : Str) (prompt : Str) :
    Nat → Nat → Nat → List Nat → List GCall → GeminiTrace
  | 0, _, _, sleeps, log =>
    -- unreachable from `maxRetries > 0`: the last attempt returns or raises
    ⟨.error (.other 0), maxRetries, [], sleeps, log, prompt⟩
  | rem + 1, attempt, delay, sleeps, log =>
    let log := log ++ [⟨primaryModel, attemptTimeout⟩]
    match gen attempt primaryModel attemptTimeout prompt with
    | .ok s => ⟨.ok s, attempt + 1, [], sleeps, log, prompt⟩
    | .error e =>
      if e = .notFound then ⟨.error e, attempt + 1, [], sleeps, log, prompt⟩
      else if isTransientErr e then
        if attempt < maxRetries - 1 then
          geminiGo gen primaryModel prompt rem (attempt + 1) (delay * 2)
            (sleeps ++ [delay]) log
        else
          let (tried, fbLog, res) := runFallbacks gen prompt fallbackModels
          match res with
          | some s => ⟨.ok s, attempt + 1, tried, sleeps, log ++ fbLog, prompt⟩
          | none => ⟨.error e, attempt + 1, tried, sleeps, log ++ fbLog, prompt⟩
      else ⟨.error e, attempt + 1, [], sleeps, log, prompt⟩

/-- Model of `GeminiProvider.complete`: join the transcript, trim it to the last
`MAX_CHARS` characters, then run the retry/fallback loop on the primary
model with backoff starting at one time unit. -/
def geminiComplete (gen : GenAttempt) (primaryModel : Str)
    (msgs : List (Str × Str)) : GeminiTrace :=
  let prompt := trimMax (joinMessages msgs)
  geminiGo gen primaryModel prompt maxRetries 0 1 [] []

/-- The prompt actually handed to the backend for a given transcript. -/
def promptOf (msgs : List (Str × Str)) : Str := trimMax (joinMessages msgs)

/-- Result of the prompt-shaping part of `GeminiProvider.stream`,
instrumented with the prompt sent. -/
structure StreamTrace where
  promptSent : Str
  events : List Str

/-- Model of `GeminiProvider.stream`: the same join-and-trim prompt shaping as
`complete`, then a single streaming attempt. -/
def geminiStream (gen : Str → List Str) (msgs : List (Str × Str)) : StreamTrace :=
  let prompt := trimMax (joinMessages msgs)
  ⟨prompt, gen prompt⟩

/-! ## Sync bridge, `ProviderSyncAdapter.generate` (src/astra/llms.py, lines 26-40) -/

/-- Thread-local asyncio bookkeeping: the event loop currently set for
the thread, the id generator for fresh loops, the loops whose async
generators have been shut down, and the loops that were closed. -/
structure AsyncioState where
  current : Option Nat
  nextLoopId : Nat
  asyncgensShut : List Nat
  closedLoops : List Nat
deriving DecidableEq

/-- Model of `ProviderSyncAdapter.generate`: create a fresh event loop, set it as
the thread's loop, drive `provider.complete` to completion on it
(`runOutcome loopId`, an `Except` modelling return or raise), then in
`finally` shut down the loop's async generators and set the thread's
loop slot to `None`.  Returns the propagated outcome, the final
bookkeeping state, and the id of the loop created. -/
def syncGenerate (runOutcome : Nat → Except Str Str) (s : AsyncioState) :
    Except Str Str × AsyncioState × Nat :=
  let loopId := s.nextLoopId
  let s1 : AsyncioState := { s with nextLoopId := s.nextLoopId + 1 }
  let s2 : AsyncioState := { s1 with current := some loopId }
  let outcome := runOutcome loopId
  let s3 : AsyncioState := { s2 with asyncgensShut := s2.asyncgensShut ++ [loopId] }
  let s4 : AsyncioState := { s3 with current := none }
  (outcome, s4, loopId)

/-! ## Definitions taken from the specification's words, for the
refinement-shaped claims -/

/-- Modelled from the spec: output priority when forced to STEP_LIMIT —
an explicit FinalAnswer text if one exists, else the last tool-result
text, else the last raw reply text, else the empty string. -/
def specChain (lf ltr lraw : Option Str) : Str :=
  match lf with
  | some t => t
  | none =>
    match ltr with
    | some t => t
    | none =>
      match lraw with
      | some t => t
      | none => []

/-- Modelled from the spec: a prompt longer than the cap is replaced by
its final `MAX_CHARS` characters, a shorter one is sent unchanged. -/
def specTrimmedPrompt (p : Str) : Str :=
  if p.length ≤ MAX_CHARS then p else p.drop (p.length - MAX_CHARS)

/-! ## String lemmas -/

theorem isPre_self_append (n b : Str) : isPre n (n ++ b) = true := by
  induction n with
  | nil => simp [isPre]
  | cons c rest ih => simpa [isPre] using ih

theorem isPre_length_le (a : Str) : ∀ b : Str, isPre a b = true → a.length ≤ b.length := by
  induction a with
  | nil => intro b _; simp
  | cons c rest ih =>
    intro b h
    match b with
    | [] => simp [isPre] at h
    | d :: bs =>
      simp only [isPre] at h
      split at h
      · simpa using ih bs h
      · exact absurd h (by simp)

theorem findSub_nil_pat (b : Str) : findSub [] b = some 0 := by
  cases b <;> simp [findSub, isPre]

theorem containsSub_sandwich (n a b : Str) : containsSub n (a ++ (n ++ b)) = true := by
  induction a with
  | nil =>
    cases n with
    | nil => simp [containsSub, findSub_nil_pat]
    | cons c rest =>
      have h : isPre (c :: rest) (c :: (rest ++ b)) = true := by
        simpa using isPre_self_append (c :: rest) b
      simp [containsSub, findSub, h]
  | cons c as ih =>
    simp only [List.cons_append, containsSub, findSub]
    split
    · simp
    · simpa [containsSub] using ih

theorem dropWhile_append_all {p : Char → Bool} :
    ∀ {a : Str} (b : Str), (∀ c ∈ a, p c = true) →
      (a ++ b).dropWhile p = b.dropWhile p := by
  intro a
  induction a with
  | nil => intro b _; rfl
  | cons c rest ih =>
    intro b h
    have hc : p c = true := h c (by simp)
    simpa [List.dropWhile_cons, hc] using ih b (fun x hx => h x (by simp [hx]))

theorem stripRight_eq_nil_iff {l : Str} :
    stripRight l = [] ↔ ∀ c ∈ l, isSpace c = true := by
  simp [stripRight, List.dropWhile_eq_nil_iff]

theorem dropWhile_append_ne {p : Char → Bool} :
    ∀ {a : Str} (b : Str), a.dropWhile p ≠ [] →
      (a ++ b).dropWhile p = a.dropWhile p ++ b := by
  intro a
  induction a with
  | nil => intro b h; simp at h
  | cons c rest ih =>
    intro b h
    by_cases hc : p c = true
    · have h' : rest.dropWhile p ≠ [] := by simpa [List.dropWhile_cons, hc] using h
      simpa [List.dropWhile_cons, hc] using ih b h'
    · simp [List.dropWhile_cons, hc]

theorem stripRight_append_left (a b : Str) (h : stripRight b ≠ []) :
    stripRight (a ++ b) = a ++ stripRight b := by
  have hne : b.reverse.dropWhile isSpace ≠ [] := by
    intro hnil
    exact h (by simp [stripRight, hnil])
  have hrw : (b.reverse ++ a.reverse).dropWhile isSpace =
      b.reverse.dropWhile isSpace ++ a.reverse :=
    dropWhile_append_ne a.reverse hne
  simp [stripRight, hrw]

theorem stripLeft_cons_not_space {c : Char} (l : Str) (h : isSpace c = false) :
    stripLeft (c :: l) = c :: l := by
  simp [stripLeft, List.dropWhile_cons, h]

theorem stripRight_concat_not_space {d : Char} (l : Str) (h : isSpace d = false) :
    stripRight (l ++ [d]) = l ++ [d] := by
  simp [stripRight, List.dropWhile_cons, h]

/-! ## Claim C2: the loop issues at most `max_steps` backend calls -/

theorem execGo_calls_le (backend : Str → Str) (tools : ToolReg) :
    ∀ fuel transcript lf ltr lr calls,
      (execGo backend tools fuel transcript lf ltr lr calls).calls ≤ calls + fuel := by
  intro fuel
  induction fuel with
  | zero => intro tr lf ltr lr c; simp [execGo]
  | succ n ih =>
    intro tr lf ltr lr c
    cases hp : parse_tool_call (backend tr) with
    | none => simp [execGo, hp]
    | some d =>
      cases hf : jGet d finalKey with
      | some fv => simp [execGo, hp, hf]
      | none =>
        cases hd : dispatchLookup tools (toolNameOf d) with
        | none => simp [execGo, hp, hf, hd]
        | some f =>
          simp only [execGo, hp, hf, hd]
          exact le_trans (ih _ _ _ _ _) (by omega)

/-- Claim C2: for every single task execution of `Agent.execute`, the
backend's `generate` operation is invoked at most `max_steps` times
(value 6), whatever sequence of replies the backend produces. -/
theorem claim_C2_backend_calls_bounded
    (backend : Str → Str) (tools : ToolReg) (conversation : Str) :
    (Agent.execute backend tools conversation).calls ≤ maxSteps := by
  simpa [Agent.execute] using
    execGo_calls_le backend tools maxSteps conversation none none none 0

/-- Witness for C2 at a concrete backend, registry and prompt. -/
theorem claim_C2_witness :
    (Agent.execute (fun _ => lit "FINAL: done") none (lit "go")).calls ≤ maxSteps :=
  claim_C2_backend_calls_bounded (fun _ => lit "FINAL: done") none (lit "go")

/-! ## Further loop lemmas -/

theorem append_ne_nil_left {a : Str} (b : Str) (h : a ≠ []) : a ++ b ≠ [] := by
  cases a with
  | nil => exact absurd rfl h
  | cons c r => simp

theorem loopReturn_some_ne (msg : Str) (ltr : Option Str) (h : msg ≠ []) :
    loopReturn (some msg) ltr = pyStrip msg := by
  simp [loopReturn, pyOrOpt, h]

theorem execGo_calls_mono (backend : Str → Str) (tools : ToolReg) :
    ∀ fuel transcript lf ltr lr calls,
      calls ≤ (execGo backend tools fuel transcript lf ltr lr calls).calls := by
  intro fuel
  induction fuel with
  | zero => intro tr lf ltr lr c; simp [execGo]
  | succ n ih =>
    intro tr lf ltr lr c
    cases hp : parse_tool_call (backend tr) with
    | none => simp [execGo, hp]
    | some d =>
      cases hf : jGet d finalKey with
      | some fv => simp [execGo, hp, hf]
      | none =>
        cases hd : dispatchLookup tools (toolNameOf d) with
        | none => simp [execGo, hp, hf, hd]
        | some f =>
          simp only [execGo, hp, hf, hd]
          exact le_trans (by omega) (ih _ _ _ _ _)

theorem execGo_calls_ge_one (backend : Str → Str) (tools : ToolReg)
    (fuel : Nat) (transcript : Str) (lf ltr lr : Option Str) (calls : Nat) :
    calls + 1 ≤ (execGo backend tools (fuel + 1) transcript lf ltr lr calls).calls := by
  cases hp : parse_tool_call (backend transcript) with
  | none => simp [execGo, hp]
  | some d =>
    cases hf : jGet d finalKey with
    | some fv => simp [execGo, hp, hf]
    | none =>
      cases hd : dispatchLookup tools (toolNameOf d) with
      | none => simp [execGo, hp, hf, hd]
      | some f =>
        simp only [execGo, hp, hf, hd]
        exact execGo_calls_mono backend tools _ _ _ _ _ _

/-! ## Claim C5: unknown tool terminates the loop with a message naming it -/

/-- Claim C5: whenever a reply parses to a `ToolCallIntent` whose tool
name is absent from the registry, the loop (at any remaining step budget
and in any state) makes no further backend call — exactly the one call of
this turn is counted — exits through the unknown-tool path, and its
output contains the missing tool's name. -/
theorem claim_C5_unknown_tool_terminates
    (backend : Str → Str) (tools : ToolReg) (fuel : Nat) (transcript : Str)
    (lf ltr lr : Option Str) (calls : Nat) (d : List (Str × JValue))
    (hparse : parse_tool_call (backend transcript) = some d)
    (hfinal : jGet d finalKey = none)
    (hmissing : dispatchLookup tools (toolNameOf d) = none) :
    (execGo backend tools (fuel + 1) transcript lf ltr lr calls).calls = calls + 1 ∧
    (execGo backend tools (fuel + 1) transcript lf ltr lr calls).reason = .unknownTool ∧
    containsSub (toolNameOf d)
      (execGo backend tools (fuel + 1) transcript lf ltr lr calls).output = true := by
  have hmidne : stripRight (unknownToolMsgMid ++ backend transcript) ≠ [] := by
    intro hnil
    have hall := stripRight_eq_nil_iff.mp hnil
    have h27 : isSpace '\x27' = true :=
      hall '\x27' (List.mem_append_left _ (by decide))
    exact absurd h27 (by decide)
  have h1 : stripRight (toolNameOf d ++ (unknownToolMsgMid ++ backend transcript)) =
      toolNameOf d ++ stripRight (unknownToolMsgMid ++ backend transcript) :=
    stripRight_append_left _ _ hmidne
  have h1ne : stripRight (toolNameOf d ++ (unknownToolMsgMid ++ backend transcript)) ≠ [] := by
    rw [h1]
    intro hnil
    rcases List.append_eq_nil.mp hnil with ⟨_, hr⟩
    exact hmidne hr
  have h2 : stripRight (unknownToolMsgPre ++
        (toolNameOf d ++ (unknownToolMsgMid ++ backend transcript))) =
      unknownToolMsgPre ++
        (toolNameOf d ++ stripRight (unknownToolMsgMid ++ backend transcript)) := by
    rw [stripRight_append_left _ _ h1ne, h1]
  have hmsgne : unknownToolMsgPre ++
      (toolNameOf d ++ (unknownToolMsgMid ++ backend transcript)) ≠ [] :=
    append_ne_nil_left _ (by decide)
  have hstrip : pyStrip (unknownToolMsgPre ++
        (toolNameOf d ++ (unknownToolMsgMid ++ backend transcript))) =
      unknownToolMsgPre ++
        (toolNameOf d ++ stripRight (unknownToolMsgMid ++ backend transcript)) := by
    rw [pyStrip, h2]
    have hcons : unknownToolMsgPre ++
        (toolNameOf d ++ stripRight (unknownToolMsgMid ++ backend transcript)) =
        'T' :: (lit "ool \x27" ++
          (toolNameOf d ++ stripRight (unknownToolMsgMid ++ backend transcript))) := by
      rw [show unknownToolMsgPre = 'T' :: lit "ool \x27" by decide]
      rfl
    rw [hcons, stripLeft_cons_not_space _ (by decide)]
  refine ⟨?_, ?_, ?_⟩
  · simp [execGo, hparse, hfinal, hmissing]
  · simp [execGo, hparse, hfinal, hmissing]
  · simp only [execGo, hparse, hfinal, hmissing]
    show containsSub (toolNameOf d)
      (loopReturn (some (unknownToolMsgPre ++ toolNameOf d ++ unknownToolMsgMid ++
        backend transcript)) ltr) = true
    rw [show unknownToolMsgPre ++ toolNameOf d ++ unknownToolMsgMid ++ backend transcript =
      unknownToolMsgPre ++ (toolNameOf d ++ (unknownToolMsgMid ++ backend transcript)) by
        simp [List.append_assoc]]
    rw [loopReturn_some_ne _ _ hmsgne, hstrip]
    exact containsSub_sandwich _ _ _

/-- Witness for C5: a reply calling the unregistered tool `Missing`
terminates the loop at once with a message naming it. -/
theorem claim_C5_witness :
    (Agent.execute (fun _ => lit "\x7b\"tool\": \"Missing\", \"args\": \x7b\x7d\x7d")
        none (lit "conv")).calls = 0 + 1 ∧
    (Agent.execute (fun _ => lit "\x7b\"tool\": \"Missing\", \"args\": \x7b\x7d\x7d")
        none (lit "conv")).reason = .unknownTool ∧
    containsSub (lit "Missing")
      (Agent.execute (fun _ => lit "\x7b\"tool\": \"Missing\", \"args\": \x7b\x7d\x7d")
        none (lit "conv")).output = true := by
  have h := claim_C5_unknown_tool_terminates
    (fun _ => lit "\x7b\"tool\": \"Missing\", \"args\": \x7b\x7d\x7d") none 5
    (lit "conv") none none none 0
    [(lit "tool", .str (lit "Missing")), (lit "args", .obj [])]
    (by rfl) (by rfl) (by rfl)
  simpa [Agent.execute, maxSteps, show toolNameOf
    [(lit "tool", .str (lit "Missing")), (lit "args", .obj [])] = lit "Missing" by rfl]
    using h

/-! ## Claim C8: tool failures are resolved into the transcript and the
loop continues -/

/-- Claim C8: whenever a reply parses to a `ToolCallIntent` naming a
registered tool whose call raises (argument-validation failure in
`Tool.__call__` or an internal error), the turn produces the tool-result
message `Tool execution error: …`, appends a transcript extension
containing that message, records it as the last tool result, and
continues with the next loop pass (with at least one further backend
call when budget remains) instead of terminating. -/
theorem claim_C8_tool_error_continues
    (backend : Str → Str) (tools : ToolReg) (fuel : Nat) (transcript : Str)
    (lf ltr lr : Option Str) (calls : Nat) (d : List (Str × JValue))
    (toolFn : ToolFn) (e : Str)
    (hparse : parse_tool_call (backend transcript) = some d)
    (hfinal : jGet d finalKey = none)
    (hfound : dispatchLookup tools (toolNameOf d) = some toolFn)
    (herr : toolFn (toolArgsOf d) = .error e) :
    execGo backend tools (fuel + 1) transcript lf ltr lr calls =
      execGo backend tools fuel
        (transcript ++ toolTurnExt (toolNameOf d) (toolArgsOf d)
          (lit "Tool execution error: " ++ e))
        lf (some (lit "Tool execution error: " ++ e)) (some (backend transcript))
        (calls + 1) ∧
    containsSub (lit "Tool execution error: " ++ e)
      (toolTurnExt (toolNameOf d) (toolArgsOf d)
        (lit "Tool execution error: " ++ e)) = true ∧
    (1 ≤ fuel →
      calls + 2 ≤ (execGo backend tools (fuel + 1) transcript lf ltr lr calls).calls) := by
  have hrun : runTool toolFn (toolArgsOf d) = lit "Tool execution error: " ++ e := by
    simp [runTool, herr]
  refine ⟨?_, ?_, ?_⟩
  · simp only [execGo, hparse, hfinal, hfound, hrun]
  · have hassoc : toolTurnExt (toolNameOf d) (toolArgsOf d)
        (lit "Tool execution error: " ++ e) =
        (lit "\n\n[Tool call]\nName: " ++ toolNameOf d ++ lit "\nArgs: " ++
          jdump (toolArgsOf d) ++ lit "\n[Tool result]\n") ++
        ((lit "Tool execution error: " ++ e) ++
          lit "\n\nRespond with another tool call JSON or FINAL: <answer>.") := by
      simp [toolTurnExt, List.append_assoc]
    rw [hassoc]
    exact containsSub_sandwich _ _ _
  · intro hfuel
    obtain ⟨fuel', rfl⟩ : ∃ fuel', fuel = fuel' + 1 := ⟨fuel - 1, by omega⟩
    have heq : execGo backend tools (fuel' + 1 + 1) transcript lf ltr lr calls =
        execGo backend tools (fuel' + 1)
          (transcript ++ toolTurnExt (toolNameOf d) (toolArgsOf d)
            (lit "Tool execution error: " ++ e))
          lf (some (lit "Tool execution error: " ++ e)) (some (backend transcript))
          (calls + 1) := by
      simp only [execGo, hparse, hfinal, hfound, hrun]
    rw [heq]
    have := execGo_calls_ge_one backend tools fuel'
      (transcript ++ toolTurnExt (toolNameOf d) (toolArgsOf d)
        (lit "Tool execution error: " ++ e))
      lf (some (lit "Tool execution error: " ++ e)) (some (backend transcript))
      (calls + 1)
    omega

/-- Witness for C8: a registered tool `Boom` that always raises makes
the loop continue with the error message in the transcript extension. -/
theorem claim_C8_witness :
    (execGo (fun _ => lit "\x7b\"tool\": \"Boom\", \"args\": \x7b\x7d\x7d")
        (some [(lit "Boom", fun _ => Except.error (lit "bad args"))]) 6
        (lit "conv") none none none 0 =
      execGo (fun _ => lit "\x7b\"tool\": \"Boom\", \"args\": \x7b\x7d\x7d")
        (some [(lit "Boom", fun _ => Except.error (lit "bad args"))]) 5
        (lit "conv" ++ toolTurnExt (lit "Boom") (JValue.obj [])
          (lit "Tool execution error: " ++ lit "bad args"))
        none (some (lit "Tool execution error: " ++ lit "bad args"))
        (some (lit "\x7b\"tool\": \"Boom\", \"args\": \x7b\x7d\x7d")) (0 + 1)) ∧
    containsSub (lit "Tool execution error: " ++ lit "bad args")
      (toolTurnExt (lit "Boom") (JValue.obj [])
        (lit "Tool execution error: " ++ lit "bad args")) = true ∧
    0 + 2 ≤ (execGo (fun _ => lit "\x7b\"tool\": \"Boom\", \"args\": \x7b\x7d\x7d")
        (some [(lit "Boom", fun _ => Except.error (lit "bad args"))]) 6
        (lit "conv") none none none 0).calls := by
  have h := claim_C8_tool_error_continues
    (fun _ => lit "\x7b\"tool\": \"Boom\", \"args\": \x7b\x7d\x7d")
    (some [(lit "Boom", fun _ => Except.error (lit "bad args"))]) 5
    (lit "conv") none none none 0
    [(lit "tool", .str (lit "Boom")), (lit "args", .obj [])]
    (fun _ => Except.error (lit "bad args")) (lit "bad args")
    (by rfl) (by rfl) (by rfl) (by rfl)
  have hname : toolNameOf [(lit "tool", .str (lit "Boom")), (lit "args", .obj [])] =
      lit "Boom" := by rfl
  have hargs : toolArgsOf [(lit "tool", .str (lit "Boom")), (lit "args", .obj [])] =
      JValue.obj [] := by rfl
  refine ⟨?_, ?_, ?_⟩
  · have := h.1
    rw [hname, hargs] at this
    exact this
  · have := h.2.1
    rw [hname, hargs] at this
    exact this
  · exact h.2.2 (by omega)

/-! ## Claim C9: prompt trimming keeps only the final `MAX_CHARS` characters -/

theorem trimMax_eq_spec (p : Str) : trimMax p = specTrimmedPrompt p := by
  by_cases h : p.length ≤ MAX_CHARS
  · simp [trimMax, specTrimmedPrompt, h, Nat.not_lt.mpr h]
  · simp [trimMax, specTrimmedPrompt, h, Nat.lt_of_not_le h]

theorem geminiGo_promptSent (gen : GenAttempt) (pm prompt : Str) :
    ∀ rem attempt delay sleeps log,
      (geminiGo gen pm prompt rem attempt delay sleeps log).promptSent = prompt := by
  intro rem
  induction rem with
  | zero => intro att delay sleeps log; rfl
  | succ n ih =>
    intro att delay sleeps log
    cases hg : gen att pm attemptTimeout prompt with
    | ok s => simp [geminiGo, hg]
    | error e =>
      by_cases hnf : e = GError.notFound
      · simp [geminiGo, hg, hnf]
      · by_cases ht : isTransientErr e = true
        · by_cases hat : att < maxRetries - 1
          · simp only [geminiGo, hg]
            rw [if_neg hnf, if_pos ht, if_pos hat]
            exact ih _ _ _ _
          · rcases hr : runFallbacks gen prompt fallbackModels with ⟨tried, fbLog, res⟩
            simp only [geminiGo, hg]
            rw [if_neg hnf, if_pos ht, if_neg hat, hr]
            cases res <;> rfl
        · simp only [geminiGo, hg]
          rw [if_neg hnf, if_neg (by simpa using ht)]

/-- Claim C9: for every call to `complete` or `stream`, the prompt sent
to the backend is the joined transcript when it fits in `MAX_CHARS`
characters and exactly its final `MAX_CHARS` characters otherwise: it
always matches the spec-side trimming, is a suffix of the joined
transcript, and has length `min(len, MAX_CHARS)`. -/
theorem claim_C9_prompt_trimming (gen : GenAttempt) (primaryModel : Str)
    (sgen : Str → List Str) (msgs : List (Str × Str)) :
    (geminiComplete gen primaryModel msgs).promptSent =
      specTrimmedPrompt (joinMessages msgs) ∧
    (geminiStream sgen msgs).promptSent = specTrimmedPrompt (joinMessages msgs) ∧
    (geminiComplete gen primaryModel msgs).promptSent <:+ joinMessages msgs ∧
    (geminiComplete gen primaryModel msgs).promptSent.length =
      min (joinMessages msgs).length MAX_CHARS := by
  have h1 : (geminiComplete gen primaryModel msgs).promptSent =
      trimMax (joinMessages msgs) := by
    simpa [geminiComplete] using
      geminiGo_promptSent gen primaryModel (trimMax (joinMessages msgs))
        maxRetries 0 1 [] []
  refine ⟨?_, ?_, ?_, ?_⟩
  · rw [h1, trimMax_eq_spec]
  · rw [show (geminiStream sgen msgs).promptSent = trimMax (joinMessages msgs) from rfl,
      trimMax_eq_spec]
  · rw [h1]
    by_cases h : MAX_CHARS < (joinMessages msgs).length
    · simpa [trimMax, h] using List.drop_suffix _ _
    · simp [trimMax, h]
  · rw [h1]
    by_cases h : MAX_CHARS < (joinMessages msgs).length
    · simp [trimMax, h]
      omega
    · simp [trimMax, h]
      omega

/-! ## Claim C10: the sync bridge's execution-context lifecycle -/

/-- Counterexample to claim C10: when the calling thread already has an
event loop set (here loop 7), the bridge does not leave the caller's
concurrency context unchanged — the `finally` clause sets the thread's
loop slot to `None` instead of restoring loop 7. -/
theorem claim_C10_counterexample :
    ¬ ((syncGenerate (fun _ => Except.ok (lit "hi"))
          ⟨some 7, 8, [], []⟩).2.1.current =
        (⟨some 7, 8, [], []⟩ : AsyncioState).current) := by
  simp [syncGenerate]

/-- Claim C10 as amended: every call to the blocking entry point creates
a fresh event loop, drives the asynchronous call to completion on it and
propagates its outcome (return value or exception) unchanged; on both
the success and the failure path it then shuts down the loop's async
generators and sets the thread's event-loop slot to `None` — it does not
restore the caller's previous loop, and the created loop is never
closed. -/
theorem claim_C10_amended (runOutcome : Nat → Except Str Str) (s : AsyncioState) :
    (syncGenerate runOutcome s).1 = runOutcome s.nextLoopId ∧
    (syncGenerate runOutcome s).2.2 = s.nextLoopId ∧
    (syncGenerate runOutcome s).2.1.nextLoopId = s.nextLoopId + 1 ∧
    (syncGenerate runOutcome s).2.1.asyncgensShut = s.asyncgensShut ++ [s.nextLoopId] ∧
    (syncGenerate runOutcome s).2.1.current = none ∧
    (syncGenerate runOutcome s).2.1.closedLoops = s.closedLoops :=
  ⟨rfl, rfl, rfl, rfl, rfl, rfl⟩

/-! ## Claims C6 and C7: retry, fallback and timeout policy of `complete` -/

theorem transient_ne_notFound {e : GError} (h : isTransientErr e = true) :
    e ≠ GError.notFound := by
  cases e <;> simp_all [isTransientErr]

theorem runFallbacks_all_fail (gen : GenAttempt) (p : Str) :
    ∀ ms : List Str, (∀ m ∈ ms, ∃ err, gen 0 m attemptTimeout p = .error err) →
      runFallbacks gen p ms = (ms, ms.map (fun m => ⟨m, attemptTimeout⟩), none) := by
  intro ms
  induction ms with
  | nil => intro _; rfl
  | cons m rest ih =>
    intro h
    obtain ⟨err, herr⟩ := h m (by simp)
    simp [runFallbacks, herr, ih (fun x hx => h x (by simp [hx]))]

/-- Claim C6: with two transient failures then a success, `complete`
returns the success with exactly 3 primary attempts, backoff sleeps 1
then 2, and no fallback invoked; only when all `max_retries` primary
attempts fail transiently is the fixed-priority fallback list tried —
each model once, in order, returning the first success, and re-raising
the last primary error when every fallback also fails. -/
theorem claim_C6_retry_and_fallback
    (gen : GenAttempt) (pm : Str) (msgs : List (Str × Str))
    (e0 e1 e2 : GError) (s : Str) :
    (gen 0 pm attemptTimeout (promptOf msgs) = .error e0 →
     gen 1 pm attemptTimeout (promptOf msgs) = .error e1 →
     gen 2 pm attemptTimeout (promptOf msgs) = .ok s →
     isTransientErr e0 = true → isTransientErr e1 = true →
     (geminiComplete gen pm msgs).result = .ok s ∧
     (geminiComplete gen pm msgs).primaryCalls = 3 ∧
     (geminiComplete gen pm msgs).fallbacksTried = [] ∧
     (geminiComplete gen pm msgs).sleeps = [1, 2]) ∧
    (gen 0 pm attemptTimeout (promptOf msgs) = .error e0 →
     gen 1 pm attemptTimeout (promptOf msgs) = .error e1 →
     gen 2 pm attemptTimeout (promptOf msgs) = .error e2 →
     isTransientErr e0 = true → isTransientErr e1 = true → isTransientErr e2 = true →
     (∀ m ∈ fallbackModels, ∃ err, gen 0 m attemptTimeout (promptOf msgs) = .error err) →
     (geminiComplete gen pm msgs).result = .error e2 ∧
     (geminiComplete gen pm msgs).primaryCalls = 3 ∧
     (geminiComplete gen pm msgs).fallbacksTried = fallbackModels) ∧
    (gen 0 pm attemptTimeout (promptOf msgs) = .error e0 →
     gen 1 pm attemptTimeout (promptOf msgs) = .error e1 →
     gen 2 pm attemptTimeout (promptOf msgs) = .error e2 →
     isTransientErr e0 = true → isTransientErr e1 = true → isTransientErr e2 = true →
     gen 0 (lit "models/gemini-2.5-flash") attemptTimeout (promptOf msgs) = .ok s →
     (geminiComplete gen pm msgs).result = .ok s ∧
     (geminiComplete gen pm msgs).primaryCalls = 3 ∧
     (geminiComplete gen pm msgs).fallbacksTried = [lit "models/gemini-2.5-flash"]) := by
  refine ⟨?_, ?_, ?_⟩
  · intro h0 h1 h2 ht0 ht1
    simp only [promptOf] at h0 h1 h2
    have hn0 := transient_ne_notFound ht0
    have hn1 := transient_ne_notFound ht1
    simp [geminiComplete, geminiGo, maxRetries, h0, h1, h2, hn0, hn1, ht0, ht1]
  · intro h0 h1 h2 ht0 ht1 ht2 hfb
    simp only [promptOf] at h0 h1 h2 hfb
    have hn0 := transient_ne_notFound ht0
    have hn1 := transient_ne_notFound ht1
    have hn2 := transient_ne_notFound ht2
    have hrf := runFallbacks_all_fail gen (trimMax (joinMessages msgs)) fallbackModels hfb
    simp [geminiComplete, geminiGo, maxRetries, h0, h1, h2, hn0, hn1, hn2,
      ht0, ht1, ht2, hrf]
  · intro h0 h1 h2 ht0 ht1 ht2 hok
    simp only [promptOf] at h0 h1 h2 hok
    have hn0 := transient_ne_notFound ht0
    have hn1 := transient_ne_notFound ht1
    have hn2 := transient_ne_notFound ht2
    have hrf : runFallbacks gen (trimMax (joinMessages msgs)) fallbackModels =
        ([lit "models/gemini-2.5-flash"],
         [⟨lit "models/gemini-2.5-flash", attemptTimeout⟩], some s) := by
      simp [fallbackModels, runFallbacks, hok]
    simp [geminiComplete, geminiGo, maxRetries, h0, h1, h2, hn0, hn1, hn2,
      ht0, ht1, ht2, hrf]

/-- Concrete attempt function for the C6 witness: two transient
failures, then success. -/
def c6genA : GenAttempt := fun i _ _ _ =>
  if i = 0 then Except.error GError.serviceUnavailable
  else if i = 1 then Except.error GError.internalServerError
  else Except.ok (lit "ok")

/-- Concrete attempt function for the C6 witness: everything fails
transiently, fallbacks included. -/
def c6genB : GenAttempt := fun _ _ _ _ => Except.error GError.serviceUnavailable

/-- Concrete attempt function for the C6 witness: the primary model
fails transiently, any other model succeeds. -/
def c6genC : GenAttempt := fun _ m _ _ =>
  if m = lit "P" then Except.error GError.serviceUnavailable else Except.ok (lit "fb")

/-- Concrete transcript for the C6 witness. -/
def c6msgs : List (Str × Str) := [(lit "user", lit "hi")]

/-- Witness for C6 at the three concrete attempt functions. -/
theorem claim_C6_witness :
    ((geminiComplete c6genA (lit "P") c6msgs).result = .ok (lit "ok") ∧
     (geminiComplete c6genA (lit "P") c6msgs).primaryCalls = 3 ∧
     (geminiComplete c6genA (lit "P") c6msgs).fallbacksTried = [] ∧
     (geminiComplete c6genA (lit "P") c6msgs).sleeps = [1, 2]) ∧
    ((geminiComplete c6genB (lit "P") c6msgs).result =
        .error GError.serviceUnavailable ∧
     (geminiComplete c6genB (lit "P") c6msgs).primaryCalls = 3 ∧
     (geminiComplete c6genB (lit "P") c6msgs).fallbacksTried = fallbackModels) ∧
    ((geminiComplete c6genC (lit "P") c6msgs).result = .ok (lit "fb") ∧
     (geminiComplete c6genC (lit "P") c6msgs).primaryCalls = 3 ∧
     (geminiComplete c6genC (lit "P") c6msgs).fallbacksTried =
        [lit "models/gemini-2.5-flash"]) :=
  ⟨(claim_C6_retry_and_fallback c6genA (lit "P") c6msgs
      GError.serviceUnavailable GError.internalServerError
      GError.serviceUnavailable (lit "ok")).1
      rfl rfl rfl rfl rfl,
   (claim_C6_retry_and_fallback c6genB (lit "P") c6msgs
      GError.serviceUnavailable GError.serviceUnavailable
      GError.serviceUnavailable (lit "unused")).2.1
      rfl rfl rfl rfl rfl rfl
      (fun m _ => ⟨GError.serviceUnavailable, rfl⟩),
   (claim_C6_retry_and_fallback c6genC (lit "P") c6msgs
      GError.serviceUnavailable GError.serviceUnavailable
      GError.serviceUnavailable (lit "fb")).2.2
      (by rfl) (by rfl) (by rfl) rfl rfl rfl (by rfl)⟩

theorem runFallbacks_log_timeout (gen : GenAttempt) (p : Str) :
    ∀ ms : List Str, ∀ c ∈ (runFallbacks gen p ms).2.1, c.timeout = attemptTimeout := by
  intro ms
  induction ms with
  | nil => intro c hc; simp [runFallbacks] at hc
  | cons m rest ih =>
    intro c hc
    cases hg : gen 0 m attemptTimeout p with
    | ok s =>
      simp [runFallbacks, hg] at hc
      simp [hc]
    | error e =>
      rcases hr : runFallbacks gen p rest with ⟨tried, fbLog, res⟩
      simp [runFallbacks, hg, hr] at hc
      rcases hc with rfl | hc
      · rfl
      · exact ih c (by simp [hr, hc])

theorem geminiGo_log_timeout (gen : GenAttempt) (pm p : Str) :
    ∀ rem attempt delay sleeps log,
      (∀ c ∈ log, c.timeout = attemptTimeout) →
      ∀ c ∈ (geminiGo gen pm p rem attempt delay sleeps log).callLog,
        c.timeout = attemptTimeout := by
  intro rem
  induction rem with
  | zero => intro att delay sleeps log hlog c hc; exact hlog c hc
  | succ n ih =>
    intro att delay sleeps log hlog c hc
    have hlog' : ∀ c ∈ log ++ [(⟨pm, attemptTimeout⟩ : GCall)], c.timeout = attemptTimeout := by
      intro c hc
      rcases List.mem_append.mp hc with h | h
      · exact hlog c h
      · simp at h; simp [h]
    cases hg : gen att pm attemptTimeout p with
    | ok s =>
      simp only [geminiGo, hg] at hc
      exact hlog' c hc
    | error e =>
      by_cases hnf : e = GError.notFound
      · simp only [geminiGo, hg, if_pos hnf] at hc
        exact hlog' c hc
      · by_cases ht : isTransientErr e = true
        · by_cases hat : att < maxRetries - 1
          · simp only [geminiGo, hg, if_neg hnf, if_pos ht, if_pos hat] at hc
            exact ih _ _ _ _ hlog' c hc
          · rcases hr : runFallbacks gen p fallbackModels with ⟨tried, fbLog, res⟩
            have hfb : ∀ c ∈ fbLog, c.timeout = attemptTimeout := by
              intro c hc
              exact runFallbacks_log_timeout gen p fallbackModels c (by simp [hr, hc])
            simp only [geminiGo, hg, if_neg hnf, if_pos ht, if_neg hat, hr] at hc
            cases res with
            | some s =>
              simp only at hc
              rcases List.mem_append.mp hc with h | h
              · exact hlog' c h
              · exact hfb c h
            | none =>
              simp only at hc
              rcases List.mem_append.mp hc with h | h
              · exact hlog' c h
              · exact hfb c h
        · simp only [geminiGo, hg, if_neg hnf, if_neg ht] at hc
          exact hlog' c hc

/-- Counterexample to claim C7: a first attempt expiring on the
`asyncio.wait_for` timeout is not retried — even though the second
attempt would succeed, `complete` raises the timeout at once after a
single attempt, because `asyncio.TimeoutError` is not one of the
`google.api_core` classes the transient test checks. -/
theorem claim_C7_counterexample :
    (geminiComplete
        (fun i _ _ _ =>
          if i = 0 then Except.error GError.timeoutExpired
          else Except.ok (lit "recovered"))
        (lit "P") [(lit "user", lit "hi")]).result =
      .error GError.timeoutExpired ∧
    (geminiComplete
        (fun i _ _ _ =>
          if i = 0 then Except.error GError.timeoutExpired
          else Except.ok (lit "recovered"))
        (lit "P") [(lit "user", lit "hi")]).primaryCalls = 1 ∧
    (geminiComplete
        (fun i _ _ _ =>
          if i = 0 then Except.error GError.timeoutExpired
          else Except.ok (lit "recovered"))
        (lit "P") [(lit "user", lit "hi")]).sleeps = [] ∧
    isTransientErr GError.timeoutExpired = false := by
  refine ⟨?_, ?_, ?_, rfl⟩ <;> rfl

/-- Claim C7 as amended: every generation call actually issued by
`complete` (primary or fallback) is bounded by the independent
`asyncio.wait_for` timeout of 60 time units, but an attempt that expires
on this timeout is classified as an unknown error, not a transient one:
it is raised immediately, with no backoff sleep, no further primary
attempt and no fallback. -/
theorem claim_C7_timeout_policy (gen : GenAttempt) (pm : Str)
    (msgs : List (Str × Str)) :
    (∀ c ∈ (geminiComplete gen pm msgs).callLog, c.timeout = attemptTimeout) ∧
    (gen 0 pm attemptTimeout (promptOf msgs) = .error GError.timeoutExpired →
      (geminiComplete gen pm msgs).result = .error GError.timeoutExpired ∧
      (geminiComplete gen pm msgs).primaryCalls = 1 ∧
      (geminiComplete gen pm msgs).fallbacksTried = [] ∧
      (geminiComplete gen pm msgs).sleeps = []) := by
  constructor
  · intro c hc
    exact geminiGo_log_timeout gen pm (trimMax (joinMessages msgs))
      maxRetries 0 1 [] [] (by simp) c hc
  · intro h0
    simp only [promptOf] at h0
    simp [geminiComplete, geminiGo, maxRetries, h0, isTransientErr]

/-- Witness for C7's amended statement at a concrete attempt function. -/
theorem claim_C7_witness :
    (∀ c ∈ (geminiComplete (fun _ _ _ _ => Except.error GError.timeoutExpired)
        (lit "P") [(lit "user", lit "hi")]).callLog, c.timeout = attemptTimeout) ∧
    ((geminiComplete (fun _ _ _ _ => Except.error GError.timeoutExpired)
        (lit "P") [(lit "user", lit "hi")]).result =
          .error GError.timeoutExpired ∧
     (geminiComplete (fun _ _ _ _ => Except.error GError.timeoutExpired)
        (lit "P") [(lit "user", lit "hi")]).primaryCalls = 1 ∧
     (geminiComplete (fun _ _ _ _ => Except.error GError.timeoutExpired)
        (lit "P") [(lit "user", lit "hi")]).fallbacksTried = [] ∧
     (geminiComplete (fun _ _ _ _ => Except.error GError.timeoutExpired)
        (lit "P") [(lit "user", lit "hi")]).sleeps = []) :=
  ⟨(claim_C7_timeout_policy (fun _ _ _ _ => Except.error GError.timeoutExpired)
      (lit "P") [(lit "user", lit "hi")]).1,
   (claim_C7_timeout_policy (fun _ _ _ _ => Except.error GError.timeoutExpired)
      (lit "P") [(lit "user", lit "hi")]).2 rfl⟩

/-! ## Claim C1: the final-answer marker wins over everything -/

theorem isPre_append_ws {m : Str} (hm : ∀ c ∈ m, isSpace c = false) :
    ∀ (t w : Str), (∀ c ∈ w, isSpace c = true) → isPre m (t ++ w) = isPre m t := by
  induction m with
  | nil => intro t w _; simp [isPre]
  | cons h m' ih =>
    intro t w hw
    cases t with
    | nil =>
      show isPre (h :: m') w = isPre (h :: m') []
      cases w with
      | nil => rfl
      | cons c w' =>
        have hne : ¬ (h = c) := by
          intro he
          have h1 := hm h (by simp)
          have h2 := hw c (by simp)
          rw [he, h2] at h1
          exact absurd h1 (by simp)
        simp [isPre, hne]
    | cons c t' =>
      by_cases hc : h = c
      · simp only [List.cons_append, isPre, if_pos hc]
        exact ih (fun x hx => hm x (by simp [hx])) t' w hw
      · simp [isPre, hc]

theorem findSub_ws_none {h : Char} {m' : Str} (hm : isSpace h = false) :
    ∀ w : Str, (∀ c ∈ w, isSpace c = true) → findSub (h :: m') w = none := by
  intro w
  induction w with
  | nil => intro _; simp [findSub, isPre]
  | cons c w' ihw =>
    intro hw
    have hne : ¬ (h = c) := by
      intro he
      have h2 := hw c (by simp)
      rw [he, h2] at hm
      exact absurd hm (by simp)
    simp [findSub, isPre, hne, ihw (fun x hx => hw x (by simp [hx]))]

theorem findSub_append_ws {m : Str} (hm : ∀ c ∈ m, isSpace c = false) :
    ∀ (t w : Str), (∀ c ∈ w, isSpace c = true) → findSub m (t ++ w) = findSub m t := by
  intro t
  induction t with
  | nil =>
    intro w hw
    cases m with
    | nil => simp [findSub_nil_pat, findSub, isPre]
    | cons h m' =>
      have hnone : findSub (h :: m') w = none := findSub_ws_none (hm h (by simp)) w hw
      simp [hnone, findSub, isPre]
  | cons c t' ih =>
    intro w hw
    have hpre : isPre m ((c :: t') ++ w) = isPre m (c :: t') :=
      isPre_append_ws hm (c :: t') w hw
    simp only [List.cons_append] at hpre ⊢
    rw [findSub, findSub, hpre]
    split
    · rfl
    · rw [show t' ++ w = t' ++ w from rfl, ih w hw]

theorem findSub_ws_append {m : Str} (hm : ∀ c ∈ m, isSpace c = false) (hm0 : m ≠ []) :
    ∀ (w t : Str), (∀ c ∈ w, isSpace c = true) →
      findSub m (w ++ t) = (findSub m t).map (· + w.length) := by
  intro w
  induction w with
  | nil =>
    intro t _
    cases h : findSub m t <;> simp [h]
  | cons c w' ih =>
    intro t hw
    match m, hm0 with
    | h :: m', _ =>
      have hne : ¬ (h = c) := by
        intro he
        have h1 := hm h (by simp)
        have h2 := hw c (by simp)
        rw [he, h2] at h1
        exact absurd h1 (by simp)
      have hpre : isPre (h :: m') (c :: (w' ++ t)) = false := by
        simp [isPre, hne]
      have ihw : findSub (h :: m') (w' ++ t) = (findSub (h :: m') t).map (· + w'.length) :=
        ih t (fun x hx => hw x (by simp [hx]))
      cases hf : findSub (h :: m') t with
      | none => simp [List.cons_append, findSub, hpre, ihw, hf]
      | some a => simp [List.cons_append, findSub, hpre, ihw, hf, Nat.add_assoc]

theorem findSub_bound {m : Str} : ∀ {t : Str} {i : Nat},
    findSub m t = some i → i + m.length ≤ t.length := by
  intro t
  induction t with
  | nil =>
    intro i h
    by_cases hp : isPre m [] = true
    · cases m with
      | nil => simp [findSub, isPre] at h; omega
      | cons c r => simp [isPre] at hp
    · simp [findSub, hp] at h
  | cons c rest ih =>
    intro i h
    by_cases hp : isPre m (c :: rest) = true
    · have hlen := isPre_length_le m (c :: rest) hp
      have hi : i = 0 := by
        simp [findSub, hp] at h
        omega
      subst hi
      simpa using hlen
    · simp [findSub, hp] at h
      rcases h with ⟨i', hi', rfl⟩
      have := ih hi'
      simp only [List.length_cons]
      omega

theorem strip_decomp (s : Str) :
    ∃ w₁ w₂, s = (w₁ ++ pyStrip s) ++ w₂ ∧
      (∀ c ∈ w₁, isSpace c = true) ∧ (∀ c ∈ w₂, isSpace c = true) := by
  refine ⟨(stripRight s).takeWhile isSpace, (s.reverse.takeWhile isSpace).reverse, ?_, ?_, ?_⟩
  · have h2 : s = stripRight s ++ (s.reverse.takeWhile isSpace).reverse := by
      conv_lhs => rw [← s.reverse_reverse,
        ← List.takeWhile_append_dropWhile isSpace s.reverse]
      rw [List.reverse_append]
      rfl
    have h1 : stripRight s = (stripRight s).takeWhile isSpace ++ pyStrip s := by
      conv_lhs => rw [← List.takeWhile_append_dropWhile isSpace (stripRight s)]
      rfl
    conv_lhs => rw [h2, h1]
  · intro c hc
    exact List.mem_takeWhile_imp hc
  · intro c hc
    exact List.mem_takeWhile_imp (List.mem_reverse.mp hc)

theorem pyStrip_append_ws (x w : Str) (hw : ∀ c ∈ w, isSpace c = true) :
    pyStrip (x ++ w) = pyStrip x := by
  have hsr : stripRight (x ++ w) = stripRight x := by
    unfold stripRight
    rw [List.reverse_append,
      dropWhile_append_all _ (fun c hc => hw c (List.mem_reverse.mp hc))]
  simp [pyStrip, hsr]

/-- Claim C1: a reply containing the literal marker `FINAL:` anywhere is
always parsed as a final answer whose text is exactly the trimmed text
following the first occurrence of the marker — whatever else (including
well-formed tool-call JSON) appears in the reply; and a backend replying
`FINAL: 42` makes the loop output `42`. -/
theorem claim_C1_final_marker_wins :
    (∀ (text : Str) (i : Nat), findSub finalMarker text = some i →
      parse_tool_call text =
        some [(finalKey, JValue.str (pyStrip (text.drop (i + finalMarker.length))))]) ∧
    (∀ (tools : ToolReg) (conversation : Str),
      (Agent.execute (fun _ => lit "FINAL: 42") tools conversation).output = lit "42") := by
  constructor
  · intro text i h
    obtain ⟨w₁, w₂, hdec, hw1, hw2⟩ := strip_decomp text
    have hm : ∀ c ∈ finalMarker, isSpace c = false := by decide
    have hm0 : finalMarker ≠ [] := by decide
    have h' : findSub finalMarker text =
        (findSub finalMarker (pyStrip text)).map (· + w₁.length) := by
      conv_lhs => rw [hdec]
      rw [findSub_append_ws hm _ _ hw2,
        findSub_ws_append hm hm0 _ _ hw1]
    rw [h'] at h
    rcases hcore : findSub finalMarker (pyStrip text) with _ | i'
    · rw [hcore] at h; simp at h
    · rw [hcore] at h
      simp at h
      have hbound := findSub_bound hcore
      have hdrop : text.drop (i + finalMarker.length) =
          (pyStrip text).drop (i' + finalMarker.length) ++ w₂ := by
        conv_lhs => rw [hdec]
        rw [show (w₁ ++ pyStrip text) ++ w₂ = w₁ ++ (pyStrip text ++ w₂) by
          simp [List.append_assoc]]
        rw [show i + finalMarker.length = w₁.length + (i' + finalMarker.length) by omega]
        rw [show (w₁ ++ (pyStrip text ++ w₂)).drop
              (w₁.length + (i' + finalMarker.length)) =
            (pyStrip text ++ w₂).drop (i' + finalMarker.length) by
          simp [List.drop_append]]
        exact List.drop_append_of_le_length hbound
      simp only [parse_tool_call, hcore]
      rw [hdrop, pyStrip_append_ws _ _ hw2]
  · intro tools conversation
    rfl

/-- Witness for C1: the marker at index 3 of `xx FINAL:  42 `, and the
concrete loop run on reply `FINAL: 42`. -/
theorem claim_C1_witness :
    parse_tool_call (lit "xx FINAL:  42 ") =
      some [(finalKey, JValue.str
        (pyStrip ((lit "xx FINAL:  42 ").drop (3 + finalMarker.length))))] ∧
    (Agent.execute (fun _ => lit "FINAL: 42") none (lit "conv")).output = lit "42" :=
  ⟨claim_C1_final_marker_wins.1 (lit "xx FINAL:  42 ") 3 (by rfl),
   claim_C1_final_marker_wins.2 none (lit "conv")⟩

/-! ## Claim C4: output priority at step-limit exhaustion -/

theorem execGo_stepLimit_spec (backend : Str → Str) (tools : ToolReg) :
    ∀ fuel transcript ltr lr calls,
      (ltr = none → lr = none) →
      (execGo backend tools fuel transcript none ltr lr calls).reason = .stepLimit →
      (execGo backend tools fuel transcript none ltr lr calls).lastFinal = none ∧
      (execGo backend tools fuel transcript none ltr lr calls).output =
        pyStrip (specChain
          (execGo backend tools fuel transcript none ltr lr calls).lastFinal
          (execGo backend tools fuel transcript none ltr lr calls).lastToolResult
          (execGo backend tools fuel transcript none ltr lr calls).lastReply) := by
  intro fuel
  induction fuel with
  | zero =>
    intro tr ltr lr calls hinv _
    refine ⟨rfl, ?_⟩
    cases ltr with
    | none =>
      have hlr := hinv rfl
      subst hlr
      simp [execGo, loopReturn, pyOrOpt, specChain]
    | some t =>
      by_cases ht : t = [] <;>
        simp [execGo, loopReturn, pyOrOpt, specChain, ht, pyStrip, stripLeft, stripRight]
  | succ n ih =>
    intro tr ltr lr calls hinv hreason
    cases hp : parse_tool_call (backend tr) with
    | none => simp [execGo, hp] at hreason
    | some d =>
      cases hf : jGet d finalKey with
      | some fv => simp [execGo, hp, hf] at hreason
      | none =>
        cases hd : dispatchLookup tools (toolNameOf d) with
        | none => simp [execGo, hp, hf, hd] at hreason
        | some f =>
          have hstep : execGo backend tools (n + 1) tr none ltr lr calls =
              execGo backend tools n
                (tr ++ toolTurnExt (toolNameOf d) (toolArgsOf d)
                  (runTool f (toolArgsOf d)))
                none (some (runTool f (toolArgsOf d))) (some (backend tr))
                (calls + 1) := by
            simp only [execGo, hp, hf, hd]
          rw [hstep] at hreason ⊢
          exact ih _ _ _ _ (fun h => by simp at h) hreason

/-- Backend for the C4 scenario: every reply is the same tool call. -/
def c4backend : Str → Str := fun _ => lit "\x7b\"tool\": \"T\", \"args\": \x7b\x7d\x7d"

/-- Registry for the C4 scenario: tool `T` deterministically succeeds. -/
def c4tools : ToolReg := some [(lit "T", fun _ => Except.ok (lit "result"))]

/-- Claim C4: when the loop is forced to stop by step-count exhaustion,
no explicit final answer exists and the returned output follows the
spec's priority chain (final answer, else last tool result, else last
raw reply, else empty — each trimmed as the code trims); in the concrete
case of `max_steps` consecutive tool-call replies with no final marker,
the output equals the last tool-result text. -/
theorem claim_C4_step_limit_priority :
    (∀ (backend : Str → Str) (tools : ToolReg) (conversation : Str),
      (Agent.execute backend tools conversation).reason = .stepLimit →
      (Agent.execute backend tools conversation).lastFinal = none ∧
      (Agent.execute backend tools conversation).output =
        pyStrip (specChain
          (Agent.execute backend tools conversation).lastFinal
          (Agent.execute backend tools conversation).lastToolResult
          (Agent.execute backend tools conversation).lastReply)) ∧
    ((Agent.execute c4backend c4tools (lit "conv")).reason = .stepLimit ∧
     (Agent.execute c4backend c4tools (lit "conv")).lastToolResult =
       some (lit "result") ∧
     (Agent.execute c4backend c4tools (lit "conv")).output = lit "result") := by
  constructor
  · intro backend tools conversation h
    have := execGo_stepLimit_spec backend tools maxSteps conversation none none 0
      (fun _ => rfl)
    simpa [Agent.execute] using this (by simpa [Agent.execute] using h)
  · exact ⟨rfl, rfl, rfl⟩

/-- Witness for C4 at the concrete six-tool-call run. -/
theorem claim_C4_witness :
    (Agent.execute c4backend c4tools (lit "conv")).lastFinal = none ∧
    (Agent.execute c4backend c4tools (lit "conv")).output =
      pyStrip (specChain
        (Agent.execute c4backend c4tools (lit "conv")).lastFinal
        (Agent.execute c4backend c4tools (lit "conv")).lastToolResult
        (Agent.execute c4backend c4tools (lit "conv")).lastReply) :=
  claim_C4_step_limit_priority.1 c4backend c4tools (lit "conv") (by rfl)

/-! ## Claim C3: agreement of the three parse forms -/

theorem not_contains_findSub_none {p t : Str} (h : containsSub p t = false) :
    findSub p t = none := by
  cases hf : findSub p t with
  | none => rfl
  | some i => simp [containsSub, hf] at h

theorem containsSub_tail_false {p : Str} {c : Char} {t : Str}
    (h : containsSub p (c :: t) = false) : containsSub p t = false := by
  cases hf : findSub p t with
  | none => simp [containsSub, hf]
  | some i =>
    have : findSub p (c :: t) = none := not_contains_findSub_none h
    rw [findSub] at this
    split at this
    · exact absurd this (by simp)
    · rw [hf] at this
      exact absurd this (by simp)

theorem isPre_head_false {p : Str} {c : Char} {t : Str}
    (h : containsSub p (c :: t) = false) : isPre p (c :: t) = false := by
  have hn : findSub p (c :: t) = none := not_contains_findSub_none h
  rw [findSub] at hn
  split at hn
  · exact absurd hn (by simp)
  · next hcond => simpa using hcond

theorem fenceMatchAt_some_isPre {t g : Str} (h : fenceMatchAt t = some g) :
    isPre (lit "```") t = true := by
  unfold fenceMatchAt at h
  split at h
  · next b1 b2 b3 c1 c2 c3 c4 rest =>
    split at h
    · next hcond =>
      obtain ⟨h1, h2, h3, _⟩ := hcond
      subst h1; subst h2; subst h3
      simp [lit, isPre]
    · exact absurd h (by simp)
  · exact absurd h (by simp)

theorem fencedExtract_none_of_no_fence :
    ∀ {t : Str}, containsSub (lit "```") t = false → fencedExtract t = none := by
  intro t
  induction t with
  | nil => intro _; rfl
  | cons c rest ih =>
    intro h
    have hmat : fenceMatchAt (c :: rest) = none := by
      cases hm : fenceMatchAt (c :: rest) with
      | none => rfl
      | some g =>
        have := fenceMatchAt_some_isPre hm
        rw [isPre_head_false h] at this
        exact absurd this (by simp)
    simp only [fencedExtract, hmat]
    exact ih (containsSub_tail_false h)

theorem pyStrip_cons_concat (c : Char) (mid : Str) (d : Char)
    (hc : isSpace c = false) (hd : isSpace d = false) :
    pyStrip ((c :: mid) ++ [d]) = (c :: mid) ++ [d] := by
  have h1 : stripRight ((c :: mid) ++ [d]) = (c :: mid) ++ [d] :=
    stripRight_concat_not_space _ hd
  rw [pyStrip, h1]
  exact stripLeft_cons_not_space _ hc

theorem tryToolObj_of {s : Str} {d : List (Str × JValue)}
    (hjson : jsonParse s = some (.obj d))
    (htool : hasKey d toolKeyName = true) (hargs : hasKey d argsKeyName = true) :
    tryToolObj s = some d := by
  simp [tryToolObj, hjson, htool, hargs]

theorem fenceClose_through (w : Str) (hw : fenceTailOk w = true) :
    ∀ (core acc : Str), '\x7d' ∉ core →
      fenceClose acc ((core ++ ['\x7d']) ++ w) = some ((acc ++ core) ++ ['\x7d']) := by
  intro core
  induction core with
  | nil =>
    intro acc _
    simp [fenceClose, hw]
  | cons x xs ih =>
    intro acc hx
    have hxne : ¬ (x = '\x7d') := fun he => hx (by simp [he])
    have : fenceClose (acc ++ [x]) ((xs ++ ['\x7d']) ++ w) =
        some (((acc ++ [x]) ++ xs) ++ ['\x7d']) :=
      ih (acc ++ [x]) (fun hin => hx (by simp [hin]))
    simp only [List.cons_append, fenceClose, hxne, false_and, if_false]
    simpa [List.append_assoc] using this

theorem fencedExtract_wrap (s core : Str)
    (hshape : s = ('\x7b' :: core) ++ ['\x7d']) (hnoc : '\x7d' ∉ core) :
    fencedExtract ((lit "```json\n" ++ s) ++ lit "\n```") = some s := by
  have hmat : fenceMatchAt ((lit "```json\n" ++ s) ++ lit "\n```") = some s := by
    have hexp : (lit "```json\n" ++ s) ++ lit "\n```" =
        '`' :: '`' :: '`' :: 'j' :: 's' :: 'o' :: 'n' ::
          ('\n' :: (s ++ lit "\n```")) := by
      simp [lit, List.append_assoc]
    rw [hexp]
    show (if '`' = '`' ∧ '`' = '`' ∧ '`' = '`' ∧ 'j'.toLower = 'j' ∧ 's'.toLower = 's' ∧
        'o'.toLower = 'o' ∧ 'n'.toLower = 'n' then
        match ('\n' :: (s ++ lit "\n```")).dropWhile isSpace with
        | '\x7b' :: after => fenceClose ['\x7b'] after
        | _ => none
      else none) = some s
    rw [if_pos (by decide)]
    have hdrop : ('\n' :: (s ++ lit "\n```")).dropWhile isSpace =
        '\x7b' :: ((core ++ ['\x7d']) ++ lit "\n```") := by
      rw [hshape]
      simp [List.dropWhile_cons, isSpace, List.append_assoc]
    rw [hdrop]
    show fenceClose ['\x7b'] ((core ++ ['\x7d']) ++ lit "\n```") = some s
    rw [fenceClose_through (lit "\n```") (by decide) core ['\x7b'] hnoc, hshape]
    simp
  cases hl : (lit "```json\n" ++ s) ++ lit "\n```" with
  | nil => exact absurd hl (by simp [lit])
  | cons c rest =>
    rw [← hl]
    rw [show fencedExtract ((lit "```json\n" ++ s) ++ lit "\n```") =
      (match fenceMatchAt ((lit "```json\n" ++ s) ++ lit "\n```") with
       | some g => some g
       | none => fencedExtract rest) by rw [hl]; rfl]
    rw [hmat]

theorem splitAtChar_skip {c : Char} :
    ∀ {a : Str} (t : Str), c ∉ a → splitAtChar c (a ++ (c :: t)) = some (a, t) := by
  intro a
  induction a with
  | nil => intro t _; simp [splitAtChar]
  | cons x xs ih =>
    intro t hx
    have hxne : ¬ (x = c) := fun he => hx (by simp [he])
    simp only [List.cons_append, splitAtChar, hxne, if_false]
    simp [ih t (fun hin => hx (by simp [hin]))]

theorem scanSegs_embedded (pre core post : Str) (d : List (Str × JValue))
    (hpre : '\x7b' ∉ pre) (hc2 : '\x7d' ∉ core)
    (hk1 : containsSub quotedTool (('\x7b' :: core) ++ ['\x7d']) = true)
    (hk2 : containsSub quotedArgs (('\x7b' :: core) ++ ['\x7d']) = true)
    (hjson : jsonParse (('\x7b' :: core) ++ ['\x7d']) = some (.obj d))
    (htool : hasKey d toolKeyName = true) (hargs : hasKey d argsKeyName = true) :
    ∀ fuel, scanSegs (fuel + 1) ((pre ++ (('\x7b' :: core) ++ ['\x7d'])) ++ post) = some d := by
  intro fuel
  have hsplit1 : splitAtChar '\x7b' ((pre ++ (('\x7b' :: core) ++ ['\x7d'])) ++ post) =
      some (pre, (core ++ ['\x7d']) ++ post) := by
    have : (pre ++ (('\x7b' :: core) ++ ['\x7d'])) ++ post =
        pre ++ ('\x7b' :: ((core ++ ['\x7d']) ++ post)) := by
      simp [List.append_assoc]
    rw [this]
    exact splitAtChar_skip _ hpre
  have hsplit2 : splitAtChar '\x7d' ((core ++ ['\x7d']) ++ post) =
      some (core, post) := by
    have : (core ++ ['\x7d']) ++ post = core ++ ('\x7d' :: post) := by
      simp [List.append_assoc]
    rw [this]
    exact splitAtChar_skip _ hc2
  simp only [scanSegs, hsplit1, hsplit2]
  rw [if_pos ⟨by simpa using hk1, by simpa using hk2⟩]
  rw [tryToolObj_of (by simpa using hjson) htool hargs]

theorem parse_whole_of (t : Str) (d : List (Str × JValue))
    (hstrip : pyStrip t = t) (hfind : findSub finalMarker t = none)
    (hfx : fencedExtract t = none) (hjson : jsonParse t = some (.obj d))
    (htool : hasKey d toolKeyName = true) (hargs : hasKey d argsKeyName = true) :
    parse_tool_call t = some d := by
  simp only [parse_tool_call, hstrip, hfind, hfx, hjson]
  simp [htool, hargs]

theorem parse_fenced_of (t g : Str) (d : List (Str × JValue))
    (hstrip : pyStrip t = t) (hfind : findSub finalMarker t = none)
    (hfx : fencedExtract t = some g) (htto : tryToolObj g = some d) :
    parse_tool_call t = some d := by
  simp only [parse_tool_call, hstrip, hfind, hfx, htto]

theorem parse_scan_of (t : Str) (d : List (Str × JValue))
    (hstrip : pyStrip t = t) (hfind : findSub finalMarker t = none)
    (hfx : fencedExtract t = none) (hjson : jsonParse t = none)
    (hscan : scanSegs (t.length + 1) t = some d) :
    parse_tool_call t = some d := by
  simp only [parse_tool_call, hstrip, hfind, hfx, hjson, hscan]

/-- Counterexample to claim C3: for the valid object
`{"tool": "echo", "args": {}}` — whose argument payload is itself a
brace-delimited object — the whole-string form and the fenced form both
yield the intent, but the embedded-substring form yields no intent at
all: the lazy scan truncates the candidate at the first closing brace
(the end of the empty `args` object), that truncation fails to parse,
and the scan resumes only after it, so the three forms do not agree. -/
theorem claim_C3_counterexample :
    parse_tool_call (lit "note \x7b\"tool\": \"echo\", \"args\": \x7b\x7d\x7d end") =
      none ∧
    parse_tool_call (lit "\x7b\"tool\": \"echo\", \"args\": \x7b\x7d\x7d") =
      some [(lit "tool", JValue.str (lit "echo")), (lit "args", JValue.obj [])] ∧
    parse_tool_call (lit "```json\n\x7b\"tool\": \"echo\", \"args\": \x7b\x7d\x7d\n```") =
      some [(lit "tool", JValue.str (lit "echo")), (lit "args", JValue.obj [])] :=
  ⟨rfl, rfl, rfl⟩

/-- Claim C3 as amended: for a valid `{tool, args}` object whose textual
form is a single brace pair (so the argument payload is not itself
brace-delimited), and absent interference (no final-answer marker or
fence marker in the reply, surrounding text that opens no brace and
breaks whole-string parsing), the fenced form, the whole-string form and
the embedded-substring form all yield the identical intent.  (When the
argument payload is itself brace-delimited the embedded form can instead
yield no intent — see the counterexample.) -/
theorem claim_C3_forms_agree
    (core pre post : Str) (d : List (Str × JValue))
    (hjson : jsonParse (('\x7b' :: core) ++ ['\x7d']) = some (.obj d))
    (htool : hasKey d toolKeyName = true) (hargs : hasKey d argsKeyName = true)
    (hk1 : containsSub quotedTool (('\x7b' :: core) ++ ['\x7d']) = true)
    (hk2 : containsSub quotedArgs (('\x7b' :: core) ++ ['\x7d']) = true)
    (hc2 : '\x7d' ∉ core)
    (hnf1 : containsSub finalMarker (('\x7b' :: core) ++ ['\x7d']) = false)
    (hfence1 : containsSub (lit "```") (('\x7b' :: core) ++ ['\x7d']) = false)
    (hnf2 : containsSub finalMarker
      ((lit "```json\n" ++ (('\x7b' :: core) ++ ['\x7d'])) ++ lit "\n```") = false)
    (hpre : '\x7b' ∉ pre)
    (hnf3 : containsSub finalMarker
      ((pre ++ (('\x7b' :: core) ++ ['\x7d'])) ++ post) = false)
    (hfence3 : containsSub (lit "```")
      ((pre ++ (('\x7b' :: core) ++ ['\x7d'])) ++ post) = false)
    (hstrip3 : pyStrip ((pre ++ (('\x7b' :: core) ++ ['\x7d'])) ++ post) =
      (pre ++ (('\x7b' :: core) ++ ['\x7d'])) ++ post)
    (hwhole3 : jsonParse ((pre ++ (('\x7b' :: core) ++ ['\x7d'])) ++ post) = none) :
    parse_tool_call (('\x7b' :: core) ++ ['\x7d']) = some d ∧
    parse_tool_call
      ((lit "```json\n" ++ (('\x7b' :: core) ++ ['\x7d'])) ++ lit "\n```") = some d ∧
    parse_tool_call ((pre ++ (('\x7b' :: core) ++ ['\x7d'])) ++ post) = some d := by
  refine ⟨?_, ?_, ?_⟩
  · exact parse_whole_of _ d
      (pyStrip_cons_concat '\x7b' core '\x7d' (by decide) (by decide))
      (not_contains_findSub_none hnf1)
      (fencedExtract_none_of_no_fence hfence1)
      hjson htool hargs
  · have hstrip2 : pyStrip ((lit "```json\n" ++ (('\x7b' :: core) ++ ['\x7d'])) ++
        lit "\n```") =
        (lit "```json\n" ++ (('\x7b' :: core) ++ ['\x7d'])) ++ lit "\n```" := by
      have h1 : (lit "```json\n" ++ (('\x7b' :: core) ++ ['\x7d'])) ++ lit "\n```" =
          ('`' :: ((lit "``json\n" ++ (('\x7b' :: core) ++ ['\x7d'])) ++ lit "\n``")) ++
            ['`'] := by
        simp [show lit "```json\n" = '`' :: lit "``json\n" from rfl,
          show lit "\n```" = lit "\n``" ++ ['`'] from rfl, List.append_assoc]
      rw [h1, pyStrip_cons_concat _ _ _ (by decide) (by decide)]
    exact parse_fenced_of _ _ d hstrip2
      (not_contains_findSub_none hnf2)
      (fencedExtract_wrap _ core rfl hc2)
      (tryToolObj_of hjson htool hargs)
  · exact parse_scan_of _ d hstrip3
      (not_contains_findSub_none hnf3)
      (fencedExtract_none_of_no_fence hfence3)
      hwhole3
      (scanSegs_embedded pre core post d hpre hc2 hk1 hk2 hjson htool hargs _)

/-- Witness for the amended C3 at the object `{"tool": "t", "args": 1}`
embedded as `note {"tool": "t", "args": 1} end` and fenced. -/
theorem claim_C3_witness :
    parse_tool_call (('\x7b' :: lit "\"tool\": \"t\", \"args\": 1") ++ ['\x7d']) =
      some [(lit "tool", JValue.str (lit "t")), (lit "args", JValue.num (lit "1"))] ∧
    parse_tool_call ((lit "```json\n" ++
        (('\x7b' :: lit "\"tool\": \"t\", \"args\": 1") ++ ['\x7d'])) ++ lit "\n```") =
      some [(lit "tool", JValue.str (lit "t")), (lit "args", JValue.num (lit "1"))] ∧
    parse_tool_call ((lit "note " ++
        (('\x7b' :: lit "\"tool\": \"t\", \"args\": 1") ++ ['\x7d'])) ++ lit " end") =
      some [(lit "tool", JValue.str (lit "t")), (lit "args", JValue.num (lit "1"))] :=
  claim_C3_forms_agree (lit "\"tool\": \"t\", \"args\": 1") (lit "note ") (lit " end")
    [(lit "tool", JValue.str (lit "t")), (lit "args", JValue.num (lit "1"))]
    (by rfl) (by rfl) (by rfl) (by decide) (by decide) (by decide)
    (by decide) (by decide) (by decide) (by decide)
    (by decide) (by decide) (by decide) (by rfl)

end Astra
